import Mathlib

/-!
Verification development for the COCO noise-augmentation tool
(`src/data_augmentation/augment_data_noise.py`).

The two Python functions `add_noise_and_update_annotations` and
`augment_coco_dataset` are shallowly embedded below.  External
collaborators (the image codec, the filesystem, the Gaussian sampler)
are modelled by an explicit environment `Env`; observable side effects
(files opened, files written, messages printed) are collected in an
`Effects` trace.  Python `os.path` helpers are embedded faithfully at
the character-list level (POSIX host semantics, as the tool runs them).
-/

namespace HandFlight

/-! ## Character-level embeddings of the `os.path` helpers used by the tool -/

/-- Python `s.split('/')` on a character list (used by `posixpath.normpath`). -/
def chSplit (sep : Char) : List Char → List (List Char)
  | [] => [[]]
  | c :: cs =>
    let r := chSplit sep cs
    if c = sep then [] :: r
    else (c :: r.headD []) :: r.tail

/-- Python `'/'.join(parts)` on character lists. -/
def chJoinSlash : List (List Char) → List Char
  | [] => []
  | [x] => x
  | x :: xs => x ++ '/' :: chJoinSlash xs

/-- Drop trailing `'/'` characters (Python `head.rstrip('/')`). -/
def dropTrailingSlashes (l : List Char) : List Char :=
  (l.reverse.dropWhile (fun c => c = '/')).reverse

/-- Index of the last occurrence of `c` in `l`, or `-1` (Python `s.rfind(c)`). -/
def rfindIdx (c : Char) (l : List Char) : Int :=
  (List.range l.length).foldl
    (fun acc i => if l.getD i ' ' = c then (i : Int) else acc) (-1)

/-- Python `os.path.basename` (POSIX): everything after the last `'/'`. -/
def pyBasename (p : String) : String :=
  ⟨(chSplit '/' p.data).getLastD []⟩

/-- Python `os.path.dirname` (POSIX): `p[:rfind('/')+1]`, with trailing
slashes stripped unless the head is all slashes. -/
def pyDirname (p : String) : String :=
  let parts := chSplit '/' p.data
  if parts.length ≤ 1 then ""
  else
    let head := chJoinSlash parts.dropLast ++ ['/']
    if head ≠ [] ∧ ¬ head.all (fun c => c = '/') then ⟨dropTrailingSlashes head⟩
    else ⟨head⟩

/-- Python `os.path.splitext(p)[0]` (POSIX): strip the extension starting at
the last dot, provided that dot lies after the last `'/'` and the base name
has a non-dot character strictly before it. -/
def pySplitextRoot (p : String) : String :=
  let l := p.data
  let sepIndex := rfindIdx '/' l
  let dotIndex := rfindIdx '.' l
  if sepIndex < dotIndex ∧
      (List.range l.length).any
        (fun k => sepIndex + 1 ≤ (k : Int) ∧ (k : Int) < dotIndex ∧
          l.getD k ' ' ≠ '.') then
    ⟨l.take dotIndex.toNat⟩
  else p

/-- Python `os.path.join(a, b)` (POSIX, two components): `b` if it is
absolute, else concatenate, inserting `'/'` unless `a` is empty or
already ends in `'/'`. -/
def pyJoin (a b : String) : String :=
  if b.data.headD ' ' = '/' then b
  else if a = "" ∨ a.data.getLastD ' ' = '/' then a ++ b
  else a ++ "/" ++ b

/-- The component loop of `posixpath.normpath`: drop `''` and `'.'`,
resolve `'..'` against the accumulated components. -/
def normLoop (initialSlashes : Nat) : List (List Char) → List (List Char) → List (List Char)
  | [], acc => acc.reverse
  | comp :: rest, acc =>
    if comp = [] ∨ comp = ['.'] then normLoop initialSlashes rest acc
    else if comp ≠ ['.', '.'] ∨ (initialSlashes = 0 ∧ acc = []) ∨
        (acc ≠ [] ∧ acc.headD [] = ['.', '.']) then
      normLoop initialSlashes rest (comp :: acc)
    else if acc ≠ [] then normLoop initialSlashes rest acc.tail
    else normLoop initialSlashes rest acc

/-- Python `os.path.normpath` (POSIX). -/
def pyNormpath (p : String) : String :=
  if p = "" then "."
  else
    let l := p.data
    let initialSlashes : Nat :=
      if l.headD ' ' = '/' then
        if l.take 2 = ['/', '/'] ∧ ¬ l.take 3 = ['/', '/', '/'] then 2 else 1
      else 0
    let comps := normLoop initialSlashes (chSplit '/' l) []
    let res := List.replicate initialSlashes '/' ++ chJoinSlash comps
    if res = [] then "." else ⟨res⟩

/-- Python `s[7:]`-style slicing: drop the first `n` characters. -/
def pyDrop (n : Nat) (s : String) : String :=
  ⟨s.data.drop n⟩

/-- Python `s[-2:]`-style slicing: the last `n` characters (whole string if
shorter). -/
def pyTakeRight (n : Nat) (s : String) : String :=
  ⟨s.data.drop (s.data.length - n)⟩

/-- Python `s.replace("\\", "/")`: rewrite every backslash to a forward
slash (single-character replacement is a character map). -/
def replaceBackslash (s : String) : String :=
  ⟨s.data.map (fun c => if c = '\\' then '/' else c)⟩

/-! ## Data model (COCO annotation structures) -/

/-- One entry of the COCO `images` array. -/
structure ImageRecord where
  id : Int
  file_name : String
  width : Int
  height : Int
  deriving Repr, DecidableEq

/-- One entry of the COCO `annotations` array: the `image_id` link plus the
remaining fields (bbox geometry, category, ...) kept verbatim as
name/value pairs. -/
structure AnnotationRecord where
  image_id : Int
  rest : List (String × Int)
  deriving Repr, DecidableEq

instance : Inhabited AnnotationRecord := ⟨⟨0, []⟩⟩

/-- The loaded COCO structure: `images`, `annotations`, and the passthrough
top-level fields. -/
structure CocoData where
  images : List ImageRecord
  annotations : List AnnotationRecord
  extra : List (String × Int)
  deriving Repr, DecidableEq

/-! ## Pixel arithmetic (`numpy` uint8 semantics) -/

/-- `astype(np.uint8)` on an integer-valued sample: wrap into `[0, 256)`. -/
def castU8 (n : Int) : Nat :=
  (n % 256).toNat

/-- The noisy-pixel computation of the source, from index `k` on:
`np.clip(image_array + noise, 0, 255)` where `image_array` and `noise`
are both uint8 arrays, so `+` is 8-bit modular addition. -/
def addNoiseFrom (noise : Nat → Int) : Nat → List Nat → List Nat
  | _, [] => []
  | k, p :: ps => min ((p + castU8 (noise k)) % 256) 255 :: addNoiseFrom noise (k + 1) ps

/-- `np.clip(image_array + noise.astype(np.uint8), 0, 255)` over the whole
(flattened) pixel array. -/
def addNoiseToArray (noise : Nat → Int) (img : List Nat) : List Nat :=
  addNoiseFrom noise 0 img

/-- The formula the specification states for one pixel:
`clip(original_pixel + cast_to_uint8(noise_sample), 0, 255)` with a
mathematical (non-wrapping) addition.  Kept separate from the source
embedding `addNoiseFrom` so the two can be compared. -/
def specClipPixel (p : Nat) (n : Int) : Nat :=
  min (max (p + castU8 n) 0) 255

/-! ## Environment and effects -/

/-- A Python exception, as far as the tool distinguishes them:
`FileNotFoundError` versus everything else. -/
inductive PyExc where
  | fileNotFound
  | other (msg : String)
  deriving Repr, DecidableEq

/-- The external world: `Image.open`+`np.array` (decoded flat uint8 pixel
array, or an exception), `noisy_image.save` (an exception, or success),
and the Gaussian sampler `np.random.normal(0, noise_factor, shape)`
post-truncation (an integer sample per image path and flat pixel index;
the noise factor is implicit in this family of samples). -/
structure Env where
  load : String → Except PyExc (List Nat)
  saveResult : String → Option PyExc
  noise : String → Nat → Int

/-- The observable side effects of a run: image files opened (paths passed
to `Image.open`), files written (path and pixel data), and messages
printed. -/
structure Effects where
  opened : List String
  saved : List (String × List Nat)
  printed : List String
  deriving Repr, DecidableEq

/-- Sequential composition of effect traces. -/
def effApp (e1 e2 : Effects) : Effects :=
  ⟨e1.opened ++ e2.opened, e1.saved ++ e2.saved, e1.printed ++ e2.printed⟩

/-- The diagnostic printed by the `except FileNotFoundError` handler. -/
def fnfMsg (image_path : String) : String :=
  "File not found: " ++ image_path ++ ". Skipping this image."

/-- The path the noisy image is saved to:
`os.path.join(output_dir, splitext(basename(image_path))[0] + "_augmented_noise.png")`. -/
def noisyPathFor (output_dir image_path : String) : String :=
  pyJoin output_dir (pySplitextRoot (pyBasename image_path) ++ "_augmented_noise.png")

/-! ## The NoiseInjector: `add_noise_and_update_annotations` -/

/-- Embedding of `add_noise_and_update_annotations(image_path, annotations,
output_dir, new_image_id, noise_factor)`.  The whole body runs under a
`try` whose only handler is `except FileNotFoundError`, so a
`FileNotFoundError` raised by *either* `Image.open` or
`noisy_image.save` yields `(None, [])` plus the skip diagnostic, while
any other exception propagates.  On success the noisy image is written
and each annotation is copied with `image_id` overwritten. -/
def add_noise_and_update_annotations (env : Env) (image_path : String)
    (anns : List AnnotationRecord) (output_dir : String) (new_image_id : Int) :
    Except PyExc ((Option String × List AnnotationRecord) × Effects) :=
  match env.load image_path with
  | .error .fileNotFound =>
      .ok ((none, []), ⟨[image_path], [], [fnfMsg image_path]⟩)
  | .error (.other m) => .error (.other m)
  | .ok image_array =>
      let noisy := addNoiseToArray (env.noise image_path) image_array
      let noisy_image_path := noisyPathFor output_dir image_path
      match env.saveResult noisy_image_path with
      | some .fileNotFound =>
          .ok ((none, []), ⟨[image_path], [], [fnfMsg image_path]⟩)
      | some (.other m) => .error (.other m)
      | none =>
          .ok ((some noisy_image_path,
                anns.map (fun a => { a with image_id := new_image_id })),
               ⟨[image_path], [(noisy_image_path, noisy)], []⟩)

/-! ## The DatasetAugmenter: `augment_coco_dataset` -/

/-- The `"_" + stem[-2:]` tag computed from the input JSON path
(`last_two_letters` in the source, underscore included). -/
def tagOf (coco_json_path : String) : String :=
  "_" ++ pyTakeRight 2 (pySplitextRoot (pyBasename coco_json_path))

/-- `images_subdir = os.path.join(output_dir, f"images{last_two_letters}")`. -/
def subdirOf (output_dir coco_json_path : String) : String :=
  pyJoin output_dir ("images" ++ tagOf coco_json_path)

/-- The on-disk source path computed for one image record:
`os.path.normpath(os.path.join(dirname(coco_json_path),
f"images{tag}", file_name[7:])).replace("\\", "/")`. -/
def srcPath (coco_json_path tag : String) (info : ImageRecord) : String :=
  replaceBackslash (pyNormpath
    (pyJoin (pyJoin (pyDirname coco_json_path) ("images" ++ tag))
      (pyDrop 7 info.file_name)))

/-- The per-image loop of `augment_coco_dataset`: resolve the source path,
select this image's annotation records, call the injector with
`new_image_id = id + 4200000`, and either accumulate the new image record
and annotations or print the drop diagnostic. -/
def processImages (env : Env) (coco_json_path tag images_subdir : String)
    (anns : List AnnotationRecord) :
    List ImageRecord → Except PyExc (List ImageRecord × List AnnotationRecord × Effects)
  | [] => .ok ([], [], ⟨[], [], []⟩)
  | info :: rest =>
    let image_path := srcPath coco_json_path tag info
    let selected := anns.filter (fun a => a.image_id == info.id)
    let new_image_id := info.id + 4200000
    match add_noise_and_update_annotations env image_path selected images_subdir
        new_image_id with
    | .error e => .error e
    | .ok ((noisyPathOpt, updated_annotations), eff) =>
      match noisyPathOpt with
      | some p =>
        match processImages env coco_json_path tag images_subdir anns rest with
        | .error e => .error e
        | .ok (imgs, more, eff2) =>
          .ok ({ id := new_image_id, file_name := "images\\" ++ pyBasename p,
                 width := info.width, height := info.height } :: imgs,
               updated_annotations ++ more,
               effApp eff eff2)
      | none =>
        match processImages env coco_json_path tag images_subdir anns rest with
        | .error e => .error e
        | .ok (imgs, more, eff2) =>
          .ok (imgs, more,
               effApp (effApp eff
                 ⟨[], [], ["Removing annotations for image ID: " ++ toString info.id]⟩)
                 eff2)

/-- Embedding of `augment_coco_dataset(coco_json_path, output_dir,
noise_factor)`.  The JSON deserialization is plumbing, so the parsed
`CocoData` is passed alongside the path (which still drives the tag and
directory computations).  Returns the written annotation set, the path of
the output JSON file, and the accumulated effect trace. -/
def augment_coco_dataset (env : Env) (coco_json_path : String)
    (coco_data : CocoData) (output_dir : String) :
    Except PyExc (CocoData × String × Effects) :=
  let tag := tagOf coco_json_path
  let images_subdir := subdirOf output_dir coco_json_path
  match processImages env coco_json_path tag images_subdir coco_data.annotations
      coco_data.images with
  | .error e => .error e
  | .ok (new_images, new_annotations, eff) =>
    .ok ({ coco_data with images := new_images, annotations := new_annotations },
         pyJoin output_dir ("augmented_noise" ++ tag ++ ".json"),
         eff)

/-! ## Specification-side descriptions of the run -/

/-- Whether `env.load` succeeds at `p`. -/
def loadsOk (env : Env) (p : String) : Bool :=
  match env.load p with
  | .ok _ => true
  | .error _ => false

/-- The pixel array `env.load` yields at `p` (junk `[]` if it fails). -/
def loadedPixels (env : Env) (p : String) : List Nat :=
  match env.load p with
  | .ok img => img
  | .error _ => []

/-- The destination path of the noisy image for one image record. -/
def dstPath (coco_json_path tag images_subdir : String) (info : ImageRecord) : String :=
  noisyPathFor images_subdir (srcPath coco_json_path tag info)

/-- An image record survives the run when its source image loads and the
noisy image saves without an exception. -/
def survives (env : Env) (coco_json_path tag images_subdir : String)
    (info : ImageRecord) : Bool :=
  loadsOk env (srcPath coco_json_path tag info) &&
    (env.saveResult (dstPath coco_json_path tag images_subdir info)).isNone

/-- The output image record produced for a surviving input record. -/
def outRecord (coco_json_path tag images_subdir : String) (info : ImageRecord) :
    ImageRecord :=
  { id := info.id + 4200000,
    file_name := "images\\" ++ pyBasename (dstPath coco_json_path tag images_subdir info),
    width := info.width, height := info.height }

/-- The annotation records contributed by a surviving input record: those
matching its `id`, in order, with `image_id` remapped. -/
def remapFor (anns : List AnnotationRecord) (info : ImageRecord) :
    List AnnotationRecord :=
  (anns.filter (fun a => a.image_id == info.id)).map
    (fun a => { a with image_id := info.id + 4200000 })

/-- Concatenation of the per-element outputs, in order. -/
def concatMap (f : α → List β) : List α → List β
  | [] => []
  | x :: xs => f x ++ concatMap f xs

/-! ## Heap-level model of the annotation-update loop

The Python loop mutates dict objects, so aliasing matters.  The store
below is the heap of annotation dicts; an annotation value is a store
index.  `annotation.copy()` allocates a fresh cell holding the read
value, `new_annotation["image_id"] = new_image_id` mutates that fresh
cell in place, and the fresh index is collected. -/

/-- The loop of source lines 32-36 with the dict heap made explicit:
returns the final store and the indices of the freshly allocated
copies, in order. -/
def annCopyLoop (new_image_id : Int) :
    List AnnotationRecord → List Nat → List AnnotationRecord × List Nat
  | store, [] => (store, [])
  | store, r :: rs =>
    let c := store.getD r default
    let idx := store.length
    let store2 := (store ++ [c]).set idx { c with image_id := new_image_id }
    let res := annCopyLoop new_image_id store2 rs
    (res.1, idx :: res.2)

/-! ## Concrete environments and datasets used by the witnesses -/

/-- A two-image run: image `a.jpg` loads (pixels `[10, 200, 255, 0]`),
image `b.jpg` raises `FileNotFoundError`; saving always succeeds; every
noise sample truncates to 3. -/
def envC : Env :=
  { load := fun p =>
      if p = "d/images_DK/a.jpg" then .ok [10, 200, 255, 0]
      else .error .fileNotFound,
    saveResult := fun _ => none,
    noise := fun _ _ => 3 }

/-- The input annotation set for `envC`: two images, three annotation
records (two for image 1, one for image 2), one passthrough field. -/
def cdC : CocoData :=
  { images := [⟨1, "images\\a.jpg", 4, 1⟩, ⟨2, "images\\b.jpg", 3, 2⟩],
    annotations := [⟨1, [("bbox", 7)]⟩, ⟨2, [("bbox", 9)]⟩, ⟨1, [("cat", 5)]⟩],
    extra := [("info", 0)] }

/-- The annotation set `augment_coco_dataset envC "d/frames_DK.json" cdC
"out"` writes. -/
def outC : CocoData :=
  { images := [⟨4200001, "images\\a_augmented_noise.png", 4, 1⟩],
    annotations := [⟨4200001, [("bbox", 7)]⟩, ⟨4200001, [("cat", 5)]⟩],
    extra := [("info", 0)] }

/-- The effect trace of the `envC` run. -/
def effC : Effects :=
  ⟨["d/images_DK/a.jpg", "d/images_DK/b.jpg"],
   [("out/images_DK/a_augmented_noise.png", [13, 203, 2, 3])],
   ["File not found: d/images_DK/b.jpg. Skipping this image.",
    "Removing annotations for image ID: 2"]⟩

/-- An environment whose noise samples are all zero (the σ = 0 case:
`np.random.normal(0, 0, shape)` is identically zero). -/
def envZ : Env :=
  { load := fun _ => .ok [0, 17, 255],
    saveResult := fun _ => none,
    noise := fun _ _ => 0 }

/-- An environment where the source image loads fine but
`noisy_image.save` raises `FileNotFoundError`. -/
def envSaveFNF : Env :=
  { load := fun _ => .ok [7],
    saveResult := fun _ => some .fileNotFound,
    noise := fun _ _ => 0 }

/-- An environment where decoding the source image raises a
non-`FileNotFoundError` exception. -/
def envDecodeErr : Env :=
  { load := fun _ => .error (.other "decode error"),
    saveResult := fun _ => none,
    noise := fun _ _ => 0 }

deriving instance DecidableEq for Except

/-! ## Basic lemmas about the pixel computation -/

theorem addNoiseFrom_length (noise : Nat → Int) (img : List Nat) :
    ∀ k, (addNoiseFrom noise k img).length = img.length := by
  induction img with
  | nil => intro k; rfl
  | cons p ps ih => intro k; simp [addNoiseFrom, ih]

theorem addNoiseFrom_getD (noise : Nat → Int) (img : List Nat) :
    ∀ k i, i < img.length →
      (addNoiseFrom noise k img).getD i 0 =
        (img.getD i 0 + castU8 (noise (k + i))) % 256 := by
  induction img with
  | nil => intro k i hi; simp at hi
  | cons p ps ih =>
    intro k i hi
    cases i with
    | zero =>
      have hlt : (p + castU8 (noise k)) % 256 < 256 :=
        Nat.mod_lt _ (by omega)
      simp only [addNoiseFrom, List.getD_cons_zero, Nat.add_zero]
      omega
    | succ j =>
      simp only [addNoiseFrom, List.getD_cons_succ]
      have hkj : k + (j + 1) = (k + 1) + j := by omega
      rw [hkj]
      exact ih (k + 1) j (by simpa using Nat.lt_of_succ_lt_succ hi)

theorem addNoiseFrom_zero_noise (img : List Nat) (hpix : ∀ x ∈ img, x < 256) :
    ∀ k, addNoiseFrom (fun _ => 0) k img = img := by
  induction img with
  | nil => intro k; rfl
  | cons p ps ih =>
    intro k
    have hp : p < 256 := hpix p (by simp)
    have hcast : castU8 0 = 0 := by decide
    simp only [addNoiseFrom, hcast, Nat.add_zero]
    rw [Nat.mod_eq_of_lt hp, Nat.min_eq_left (by omega)]
    rw [ih (fun x hx => hpix x (by simp [hx])) (k + 1)]

/-! ## C3: the pixel formula -/

/-- C3, counterexample.  The claim states each output pixel equals
`clip(original + cast_to_uint8(noise), 0, 255)` with a mathematical sum.
At original pixel 200 and noise sample 100 the code produces
`(200 + 100) mod 256 = 44` (the numpy addition is uint8 and wraps), while
the claimed formula gives `clip(300) = 255`. -/
theorem C3_counterexample :
    addNoiseToArray (fun _ => 100) [200] ≠ [specClipPixel 200 100] := by
  decide

/-- C3, amended: each output pixel of the noise injection equals
`(original_pixel + cast_to_uint8(noise_sample)) mod 256` — the noise is
cast to 8 bits first, the elementwise addition itself is 8-bit and wraps
modulo 256, and the final clip to `[0, 255]` never saturates (the sum is
already in range).  Shapes are preserved. -/
theorem C3_pixel_formula (noise : Nat → Int) (img : List Nat) :
    (addNoiseToArray noise img).length = img.length ∧
    ∀ i, i < img.length →
      (addNoiseToArray noise img).getD i 0 =
        (img.getD i 0 + castU8 (noise i)) % 256 := by
  constructor
  · exact addNoiseFrom_length noise img 0
  · intro i hi
    have := addNoiseFrom_getD noise img 0 i hi
    simpa using this

/-- Witness for C3: the amended formula evaluated at pixel 200, noise 100. -/
theorem C3_witness :
    (addNoiseToArray (fun _ => 100) [200]).getD 0 0 =
      ((200 : Nat) + castU8 100) % 256 :=
  (C3_pixel_formula (fun _ => 100) [200]).2 0 (by decide)

/-! ## C6: σ = 0 is the identity on pixel data -/

/-- C6: with all noise samples zero (what `np.random.normal(0, 0, shape)`
yields for noise factor 0), a successful injection writes a pixel array
byte-identical to the decoded input array. -/
theorem C6_sigma_zero_identity (env : Env) (p od : String)
    (anns : List AnnotationRecord) (nid : Int) (img : List Nat)
    (hload : env.load p = .ok img) (hpix : ∀ x ∈ img, x < 256)
    (hnoise : ∀ i, env.noise p i = 0)
    (hsave : env.saveResult (noisyPathFor od p) = none) :
    add_noise_and_update_annotations env p anns od nid =
      .ok ((some (noisyPathFor od p),
            anns.map (fun a => { a with image_id := nid })),
           ⟨[p], [(noisyPathFor od p, img)], []⟩) := by
  have hnf : env.noise p = (fun _ => (0 : Int)) := funext hnoise
  simp only [add_noise_and_update_annotations, hload, hsave, addNoiseToArray,
    hnf, addNoiseFrom_zero_noise img hpix 0]

/-- Witness for C6: a concrete zero-noise run saves exactly the loaded
pixels `[0, 17, 255]`. -/
theorem C6_witness :
    add_noise_and_update_annotations envZ "imgs/c.png" [] "o" 9 =
      .ok ((some (noisyPathFor "o" "imgs/c.png"), []),
           ⟨["imgs/c.png"], [(noisyPathFor "o" "imgs/c.png", [0, 17, 255])], []⟩) :=
  C6_sigma_zero_identity envZ "imgs/c.png" "o" [] 9 [0, 17, 255] rfl
    (by decide) (fun _ => rfl) rfl

/-! ## C5: which exceptions the injector layer handles -/

/-- C5, counterexample.  The claim states that any failure other than the
source image being unlocatable — explicitly including errors while
saving the noisy image — propagates out of the injector.  But the
`except FileNotFoundError` covers the whole `try` block: here the source
image loads fine, the save raises `FileNotFoundError`, and the injector
still returns the handled `(None, [])` result instead of propagating. -/
theorem C5_counterexample :
    envSaveFNF.load "d/images_DK/a.jpg" = .ok [7] ∧
    envSaveFNF.saveResult "out/a_augmented_noise.png" = some .fileNotFound ∧
    add_noise_and_update_annotations envSaveFNF "d/images_DK/a.jpg" [] "out" 1 =
      .ok ((none, []),
           ⟨["d/images_DK/a.jpg"], [], [fnfMsg "d/images_DK/a.jpg"]⟩) := by
  refine ⟨rfl, rfl, ?_⟩
  decide

/-- C5, amended: the injector layer special-cases exactly
`FileNotFoundError`, wherever in the block it arises.  A
non-`FileNotFoundError` failure — whether from decoding the source image
or from saving the noisy image — propagates to the caller; a
`FileNotFoundError` raised while saving is also caught and treated as
image-not-found (no path, empty annotation list, skip diagnostic). -/
theorem C5_exception_layering (env : Env) (p od : String)
    (anns : List AnnotationRecord) (nid : Int) :
    (∀ m, env.load p = .error (.other m) →
      add_noise_and_update_annotations env p anns od nid = .error (.other m)) ∧
    (∀ img m, env.load p = .ok img →
      env.saveResult (noisyPathFor od p) = some (.other m) →
      add_noise_and_update_annotations env p anns od nid = .error (.other m)) ∧
    (∀ img, env.load p = .ok img →
      env.saveResult (noisyPathFor od p) = some .fileNotFound →
      add_noise_and_update_annotations env p anns od nid =
        .ok ((none, []), ⟨[p], [], [fnfMsg p]⟩)) := by
  refine ⟨?_, ?_, ?_⟩
  · intro m hm
    simp [add_noise_and_update_annotations, hm]
  · intro img m hl hs
    simp [add_noise_and_update_annotations, hl, hs]
  · intro img hl hs
    simp [add_noise_and_update_annotations, hl, hs]

/-- Witness for C5: a decode error (not a `FileNotFoundError`) propagates
out of the injector unchanged. -/
theorem C5_witness :
    add_noise_and_update_annotations envDecodeErr "a.png" [] "o" 1 =
      .error (.other "decode error") :=
  (C5_exception_layering envDecodeErr "a.png" "o" [] 1).1 "decode error" rfl

/-! ## Closed form of the per-image loop -/

/-- A successful run of the per-image loop is fully described by the
`survives` predicate: the output image records are `outRecord` over the
surviving inputs, the output annotation records are the concatenated
`remapFor` blocks of the surviving inputs, every image's source path is
probed in order, exactly the surviving images get a noisy file written,
and each dropped image produces the two diagnostics. -/
theorem processImages_spec (env : Env) (jp tag subdir : String)
    (anns : List AnnotationRecord) :
    ∀ (images imgs : List ImageRecord) (more : List AnnotationRecord)
      (eff : Effects),
      processImages env jp tag subdir anns images = .ok (imgs, more, eff) →
      imgs = (images.filter (fun i => survives env jp tag subdir i)).map
          (outRecord jp tag subdir) ∧
      more = concatMap (fun i =>
          if survives env jp tag subdir i then remapFor anns i else []) images ∧
      eff.opened = images.map (fun i => srcPath jp tag i) ∧
      eff.saved = (images.filter (fun i => survives env jp tag subdir i)).map
          (fun i => (dstPath jp tag subdir i,
            addNoiseToArray (env.noise (srcPath jp tag i))
              (loadedPixels env (srcPath jp tag i)))) ∧
      eff.printed = concatMap (fun i =>
          if survives env jp tag subdir i then []
          else [fnfMsg (srcPath jp tag i),
                "Removing annotations for image ID: " ++ toString i.id]) images := by
  intro images
  induction images with
  | nil =>
    intro imgs more eff h
    simp only [processImages, Except.ok.injEq, Prod.mk.injEq] at h
    obtain ⟨h1, h2, h3⟩ := h
    subst h1; subst h2; subst h3
    simp [concatMap]
  | cons info rest ih =>
    intro imgs more eff h
    simp only [processImages] at h
    cases hload : env.load (srcPath jp tag info) with
    | error e =>
      cases e with
      | fileNotFound =>
        simp only [add_noise_and_update_annotations, hload] at h
        cases hrest : processImages env jp tag subdir anns rest with
        | error e2 => rw [hrest] at h; simp at h
        | ok trip =>
          obtain ⟨imgs2, more2, eff2⟩ := trip
          rw [hrest] at h
          simp only [Except.ok.injEq, Prod.mk.injEq] at h
          obtain ⟨h1, h2, h3⟩ := h
          subst h1; subst h2; subst h3
          have hsurv : survives env jp tag subdir info = false := by
            simp [survives, loadsOk, hload]
          obtain ⟨e1, e2, e3, e4, e5⟩ := ih imgs2 more2 eff2 hrest
          refine ⟨?_, ?_, ?_, ?_, ?_⟩
          · simp [List.filter_cons, hsurv, e1]
          · simp [concatMap, hsurv, e2]
          · simp [effApp, e3]
          · simp [effApp, List.filter_cons, hsurv, e4]
          · simp [effApp, concatMap, hsurv, e5, fnfMsg]
      | other m =>
        simp only [add_noise_and_update_annotations, hload] at h
        simp at h
    | ok img =>
      cases hsave : env.saveResult (dstPath jp tag subdir info) with
      | none =>
        have hsave2 : env.saveResult (noisyPathFor subdir (srcPath jp tag info)) =
            none := hsave
        simp only [add_noise_and_update_annotations, hload, hsave2] at h
        cases hrest : processImages env jp tag subdir anns rest with
        | error e2 => rw [hrest] at h; simp at h
        | ok trip =>
          obtain ⟨imgs2, more2, eff2⟩ := trip
          rw [hrest] at h
          simp only [Except.ok.injEq, Prod.mk.injEq] at h
          obtain ⟨h1, h2, h3⟩ := h
          subst h1; subst h2; subst h3
          have hsurv : survives env jp tag subdir info = true := by
            simp [survives, loadsOk, hload, dstPath, hsave2]
          obtain ⟨e1, e2, e3, e4, e5⟩ := ih imgs2 more2 eff2 hrest
          refine ⟨?_, ?_, ?_, ?_, ?_⟩
          · simp [List.filter_cons, hsurv, e1, outRecord, dstPath]
          · simp [concatMap, hsurv, e2, remapFor]
          · simp [effApp, e3]
          · simp [effApp, List.filter_cons, hsurv, e4, dstPath, loadedPixels, hload]
          · simp [effApp, concatMap, hsurv, e5]
      | some exc =>
        cases exc with
        | fileNotFound =>
          have hsave2 : env.saveResult (noisyPathFor subdir (srcPath jp tag info)) =
              some .fileNotFound := hsave
          simp only [add_noise_and_update_annotations, hload, hsave2] at h
          cases hrest : processImages env jp tag subdir anns rest with
          | error e2 => rw [hrest] at h; simp at h
          | ok trip =>
            obtain ⟨imgs2, more2, eff2⟩ := trip
            rw [hrest] at h
            simp only [Except.ok.injEq, Prod.mk.injEq] at h
            obtain ⟨h1, h2, h3⟩ := h
            subst h1; subst h2; subst h3
            have hsurv : survives env jp tag subdir info = false := by
              simp [survives, dstPath, hsave2]
            obtain ⟨e1, e2, e3, e4, e5⟩ := ih imgs2 more2 eff2 hrest
            refine ⟨?_, ?_, ?_, ?_, ?_⟩
            · simp [List.filter_cons, hsurv, e1]
            · simp [concatMap, hsurv, e2]
            · simp [effApp, e3]
            · simp [effApp, List.filter_cons, hsurv, e4]
            · simp [effApp, concatMap, hsurv, e5, fnfMsg]
        | other m =>
          have hsave2 : env.saveResult (noisyPathFor subdir (srcPath jp tag info)) =
              some (.other m) := hsave
          simp only [add_noise_and_update_annotations, hload, hsave2] at h
          simp at h

/-- Inverting a successful `augment_coco_dataset` run: the per-image loop
succeeded with the output's `images`/`annotations`, the passthrough
fields survive verbatim, and the output JSON path follows the tag
convention. -/
theorem augment_ok_inv (env : Env) (jp : String) (cd : CocoData) (od : String)
    (out : CocoData) (jpath : String) (eff : Effects)
    (h : augment_coco_dataset env jp cd od = .ok (out, jpath, eff)) :
    processImages env jp (tagOf jp) (subdirOf od jp) cd.annotations cd.images =
      .ok (out.images, out.annotations, eff) ∧
    out.extra = cd.extra ∧
    jpath = pyJoin od ("augmented_noise" ++ tagOf jp ++ ".json") := by
  simp only [augment_coco_dataset] at h
  cases hproc : processImages env jp (tagOf jp) (subdirOf od jp) cd.annotations
      cd.images with
  | error e => rw [hproc] at h; simp at h
  | ok trip =>
    obtain ⟨imgs, more, eff2⟩ := trip
    rw [hproc] at h
    simp only [Except.ok.injEq, Prod.mk.injEq] at h
    obtain ⟨h1, h2, h3⟩ := h
    subst h2; subst h3
    refine ⟨?_, ?_, rfl⟩
    · rw [← h1]
    · rw [← h1]

/-! ## Membership and counting helpers -/

theorem mem_concatMap {α β : Type _} (f : α → List β) (b : β) :
    ∀ l : List α, b ∈ concatMap f l ↔ ∃ a ∈ l, b ∈ f a := by
  intro l
  induction l with
  | nil => simp [concatMap]
  | cons x xs ih => simp [concatMap, ih, List.mem_append]

theorem countP_matching_id (info : ImageRecord) :
    ∀ l : List ImageRecord, (l.map ImageRecord.id).Nodup → info ∈ l →
      l.countP (fun i => i.id == info.id) = 1 := by
  intro l
  induction l with
  | nil => intro _ hmem; simp at hmem
  | cons j l2 ih =>
    intro hnd hmem
    simp only [List.map_cons, List.nodup_cons] at hnd
    obtain ⟨hj, hnd2⟩ := hnd
    rcases List.mem_cons.mp hmem with heq | hmem2
    · subst heq
      rw [List.countP_cons]
      have h0 : l2.countP (fun i => i.id == info.id) = 0 := by
        rw [List.countP_eq_zero]
        intro i hi hbe
        exact hj (beq_iff_eq.mp hbe ▸ List.mem_map.mpr ⟨i, hi, rfl⟩)
      simp [h0]
    · have hne : (j.id == info.id) = false := by
        rw [beq_eq_false_iff_ne]
        intro hjid
        exact hj (hjid ▸ List.mem_map.mpr ⟨info, hmem2, rfl⟩)
      rw [List.countP_cons, hne]
      simp [ih hnd2 hmem2]

theorem backslash_not_mem (s : String) : '\\' ∉ (replaceBackslash s).data := by
  simp only [replaceBackslash, List.mem_map]
  rintro ⟨c, -, hc⟩
  by_cases h : c = '\\' <;> simp [h] at hc

theorem images_tag_string (t : String) :
    "images" ++ ("_" ++ t) = "images_" ++ t := by
  rw [← String.append_assoc, show "images" ++ "_" = "images_" from by decide]

theorem augmented_tag_string (t : String) :
    "augmented_noise" ++ ("_" ++ t) = "augmented_noise_" ++ t := by
  rw [← String.append_assoc,
    show "augmented_noise" ++ "_" = "augmented_noise_" from by decide]

/-- The concrete `envC` run, fully evaluated. -/
theorem augment_run_envC :
    augment_coco_dataset envC "d/frames_DK.json" cdC "out" =
      .ok (outC, "out/augmented_noise_DK.json", effC) := by
  decide

/-! ## C1: referential integrity of the output -/

/-- C1: when the input image ids are pairwise distinct, every annotation
record in the output references exactly one image record of the output
(the filter by matching `id` has length one). -/
theorem C1_referential_integrity (env : Env) (jp : String) (cd : CocoData)
    (od : String) (hdist : (cd.images.map ImageRecord.id).Nodup)
    (out : CocoData) (jpath : String) (eff : Effects)
    (h : augment_coco_dataset env jp cd od = .ok (out, jpath, eff)) :
    ∀ a ∈ out.annotations,
      (out.images.filter (fun r => r.id == a.image_id)).length = 1 := by
  obtain ⟨hproc, -, -⟩ := augment_ok_inv env jp cd od out jpath eff h
  obtain ⟨him, hann, -, -, -⟩ :=
    processImages_spec env jp (tagOf jp) (subdirOf od jp) cd.annotations
      cd.images out.images out.annotations eff hproc
  intro a ha
  rw [hann, mem_concatMap] at ha
  obtain ⟨info, hinfo, ha2⟩ := ha
  cases hs : survives env jp (tagOf jp) (subdirOf od jp) info with
  | false => simp [hs] at ha2
  | true =>
    simp only [hs, if_true] at ha2
    simp only [remapFor, List.mem_map, List.mem_filter] at ha2
    obtain ⟨a0, ⟨ha0, hid0⟩, rfl⟩ := ha2
    rw [him, ← List.countP_eq_length_filter, List.countP_map]
    have hcong : ∀ i ∈ cd.images.filter
        (fun i => survives env jp (tagOf jp) (subdirOf od jp) i),
        (((fun r => r.id ==
            ({ a0 with image_id := info.id + 4200000 } : AnnotationRecord).image_id) ∘
          outRecord jp (tagOf jp) (subdirOf od jp)) i = true) ↔
          ((fun i => i.id == info.id) i = true) := by
      intro i _
      simp only [Function.comp_apply, outRecord, beq_iff_eq]
      omega
    rw [List.countP_congr hcong]
    refine countP_matching_id info _ ?_ (List.mem_filter.mpr ⟨hinfo, hs⟩)
    exact List.Nodup.sublist
      (List.Sublist.map ImageRecord.id (List.filter_sublist _)) hdist

/-- Witness for C1: in the concrete run, the single annotation id 4200001
matches exactly one output image record. -/
theorem C1_witness :
    (outC.images.filter (fun r => r.id == (4200001 : Int))).length = 1 :=
  C1_referential_integrity envC "d/frames_DK.json" cdC "out" (by decide)
    outC "out/augmented_noise_DK.json" effC augment_run_envC
    ⟨4200001, [("bbox", 7)]⟩ (by decide)

/-! ## C2: the id remap rule -/

/-- C2: a surviving input image with id `K` yields an output image record
with id `K + 4200000` (geometry preserved), and every annotation of that
image reappears with `image_id` remapped to the same `K + 4200000`. -/
theorem C2_id_remap (env : Env) (jp : String) (cd : CocoData) (od : String)
    (out : CocoData) (jpath : String) (eff : Effects)
    (h : augment_coco_dataset env jp cd od = .ok (out, jpath, eff))
    (info : ImageRecord) (hmem : info ∈ cd.images)
    (hsurv : survives env jp (tagOf jp) (subdirOf od jp) info = true) :
    (∃ r ∈ out.images, r.id = info.id + 4200000 ∧
      r.width = info.width ∧ r.height = info.height) ∧
    ∀ a ∈ cd.annotations, a.image_id = info.id →
      { a with image_id := info.id + 4200000 } ∈ out.annotations := by
  obtain ⟨hproc, -, -⟩ := augment_ok_inv env jp cd od out jpath eff h
  obtain ⟨him, hann, -, -, -⟩ :=
    processImages_spec env jp (tagOf jp) (subdirOf od jp) cd.annotations
      cd.images out.images out.annotations eff hproc
  constructor
  · refine ⟨outRecord jp (tagOf jp) (subdirOf od jp) info, ?_, rfl, rfl, rfl⟩
    rw [him]
    exact List.mem_map.mpr ⟨info, List.mem_filter.mpr ⟨hmem, hsurv⟩, rfl⟩
  · intro a ha haid
    rw [hann, mem_concatMap]
    refine ⟨info, hmem, ?_⟩
    rw [if_pos hsurv]
    simp only [remapFor, List.mem_map]
    exact ⟨a, List.mem_filter.mpr ⟨ha, by simp [haid]⟩, rfl⟩

/-- Witness for C2: image 1 of the concrete run survives and its bbox
annotation reappears with `image_id = 1 + 4200000`. -/
theorem C2_witness :
    (⟨1 + 4200000, [("bbox", 7)]⟩ : AnnotationRecord) ∈ outC.annotations :=
  (C2_id_remap envC "d/frames_DK.json" cdC "out" outC
      "out/augmented_noise_DK.json" effC augment_run_envC
      ⟨1, "images\\a.jpg", 4, 1⟩ (by decide) (by decide)).2
    ⟨1, [("bbox", 7)]⟩ (by decide) rfl

/-! ## C4: drop propagation for unloadable images -/

/-- C4: with pairwise-distinct input ids, an image whose source file
raises `FileNotFoundError` contributes nothing: no output image record
with id `K + 4200000`, no output annotation with that `image_id`, the
drop diagnostic naming `K` is printed, and every other surviving image
is still processed into the output. -/
theorem C4_drop_propagation (env : Env) (jp : String) (cd : CocoData)
    (od : String) (hdist : (cd.images.map ImageRecord.id).Nodup)
    (out : CocoData) (jpath : String) (eff : Effects)
    (h : augment_coco_dataset env jp cd od = .ok (out, jpath, eff))
    (info : ImageRecord) (hmem : info ∈ cd.images)
    (hfnf : env.load (srcPath jp (tagOf jp) info) = .error .fileNotFound) :
    (∀ r ∈ out.images, r.id ≠ info.id + 4200000) ∧
    (∀ a ∈ out.annotations, a.image_id ≠ info.id + 4200000) ∧
    ("Removing annotations for image ID: " ++ toString info.id) ∈ eff.printed ∧
    (∀ info2 ∈ cd.images,
      survives env jp (tagOf jp) (subdirOf od jp) info2 = true →
      outRecord jp (tagOf jp) (subdirOf od jp) info2 ∈ out.images) := by
  obtain ⟨hproc, -, -⟩ := augment_ok_inv env jp cd od out jpath eff h
  obtain ⟨him, hann, -, -, hpr⟩ :=
    processImages_spec env jp (tagOf jp) (subdirOf od jp) cd.annotations
      cd.images out.images out.annotations eff hproc
  have hsurv : survives env jp (tagOf jp) (subdirOf od jp) info = false := by
    simp [survives, loadsOk, hfnf]
  refine ⟨?_, ?_, ?_, ?_⟩
  · intro r hr hre
    rw [him] at hr
    obtain ⟨i, hif, rfl⟩ := List.mem_map.mp hr
    obtain ⟨himem, hisurv⟩ := List.mem_filter.mp hif
    have hiid : i.id = info.id := by
      have : i.id + 4200000 = info.id + 4200000 := hre
      omega
    have : i = info := List.inj_on_of_nodup_map hdist himem hmem hiid
    rw [this, hsurv] at hisurv
    exact Bool.noConfusion hisurv
  · intro a ha hae
    rw [hann, mem_concatMap] at ha
    obtain ⟨i, himem, ha2⟩ := ha
    cases hs : survives env jp (tagOf jp) (subdirOf od jp) i with
    | false => simp [hs] at ha2
    | true =>
      simp only [hs, if_true] at ha2
      simp only [remapFor, List.mem_map, List.mem_filter] at ha2
      obtain ⟨a0, ⟨-, -⟩, rfl⟩ := ha2
      have hiid : i.id = info.id := by
        have : i.id + 4200000 = info.id + 4200000 := hae
        omega
      have : i = info := List.inj_on_of_nodup_map hdist himem hmem hiid
      rw [this, hsurv] at hs
      exact Bool.noConfusion hs
  · rw [hpr, mem_concatMap]
    exact ⟨info, hmem, by simp [hsurv]⟩
  · intro info2 h2m h2s
    rw [him]
    exact List.mem_map.mpr ⟨info2, List.mem_filter.mpr ⟨h2m, h2s⟩, rfl⟩

/-- Witness for C4: image 2 of the concrete run cannot be loaded and its
drop diagnostic is printed. -/
theorem C4_witness :
    ("Removing annotations for image ID: " ++ toString (2 : Int)) ∈
      effC.printed :=
  (C4_drop_propagation envC "d/frames_DK.json" cdC "out" (by decide)
      outC "out/augmented_noise_DK.json" effC augment_run_envC
      ⟨2, "images\\b.jpg", 3, 2⟩ (by decide) (by decide)).2.2.1

/-! ## C7: output naming conventions -/

/-- C7: the output JSON is `output_dir/augmented_noise_<tag>.json` with the
tag being the last two characters of the input filename's stem, and every
noisy image is written into the `images_<tag>` subdirectory of
`output_dir` under `<source basename without extension>_augmented_noise.png`. -/
theorem C7_output_naming (env : Env) (jp : String) (cd : CocoData)
    (od : String) (out : CocoData) (jpath : String) (eff : Effects)
    (h : augment_coco_dataset env jp cd od = .ok (out, jpath, eff)) :
    jpath = pyJoin od ("augmented_noise_" ++
        pyTakeRight 2 (pySplitextRoot (pyBasename jp)) ++ ".json") ∧
    ∀ pr ∈ eff.saved, ∃ info ∈ cd.images,
      pr.1 = pyJoin (pyJoin od ("images_" ++
          pyTakeRight 2 (pySplitextRoot (pyBasename jp))))
        (pySplitextRoot (pyBasename (srcPath jp (tagOf jp) info)) ++
          "_augmented_noise.png") := by
  obtain ⟨hproc, -, hjp⟩ := augment_ok_inv env jp cd od out jpath eff h
  obtain ⟨-, -, -, hsv, -⟩ :=
    processImages_spec env jp (tagOf jp) (subdirOf od jp) cd.annotations
      cd.images out.images out.annotations eff hproc
  constructor
  · rw [hjp]
    rw [show "augmented_noise" ++ tagOf jp =
      "augmented_noise_" ++ pyTakeRight 2 (pySplitextRoot (pyBasename jp)) from
      augmented_tag_string _]
  · intro pr hpr
    rw [hsv] at hpr
    obtain ⟨i, hif, rfl⟩ := List.mem_map.mp hpr
    obtain ⟨himem, -⟩ := List.mem_filter.mp hif
    refine ⟨i, himem, ?_⟩
    simp only []
    simp only [dstPath, noisyPathFor, subdirOf]
    rw [show "images" ++ tagOf jp =
      "images_" ++ pyTakeRight 2 (pySplitextRoot (pyBasename jp)) from
      images_tag_string _]

/-- Witness for C7: the concrete run writes its JSON to
`out/augmented_noise_DK.json`, matching the tag formula. -/
theorem C7_witness :
    "out/augmented_noise_DK.json" =
      pyJoin "out" ("augmented_noise_" ++
        pyTakeRight 2 (pySplitextRoot (pyBasename "d/frames_DK.json")) ++
        ".json") :=
  (C7_output_naming envC "d/frames_DK.json" cdC "out" outC
    "out/augmented_noise_DK.json" effC augment_run_envC).1

/-! ## C8: source path resolution -/

/-- C8: the source image paths the run opens are, in input order, exactly
`normpath(join(dirname(json), "images_<tag>", file_name[7:]))` with all
backslashes rewritten to forward slashes — and no opened path contains a
backslash. -/
theorem C8_source_path (env : Env) (jp : String) (cd : CocoData)
    (od : String) (out : CocoData) (jpath : String) (eff : Effects)
    (h : augment_coco_dataset env jp cd od = .ok (out, jpath, eff)) :
    eff.opened = cd.images.map (fun info =>
      replaceBackslash (pyNormpath (pyJoin (pyJoin (pyDirname jp)
        ("images_" ++ pyTakeRight 2 (pySplitextRoot (pyBasename jp))))
        (pyDrop 7 info.file_name)))) ∧
    ∀ p ∈ eff.opened, '\\' ∉ p.data := by
  obtain ⟨hproc, -, -⟩ := augment_ok_inv env jp cd od out jpath eff h
  obtain ⟨-, -, hop, -, -⟩ :=
    processImages_spec env jp (tagOf jp) (subdirOf od jp) cd.annotations
      cd.images out.images out.annotations eff hproc
  have hfun : (fun i => srcPath jp (tagOf jp) i) =
      (fun info : ImageRecord =>
        replaceBackslash (pyNormpath (pyJoin (pyJoin (pyDirname jp)
          ("images_" ++ pyTakeRight 2 (pySplitextRoot (pyBasename jp))))
          (pyDrop 7 info.file_name)))) := by
    funext i
    rw [srcPath]
    rw [show "images" ++ tagOf jp =
      "images_" ++ pyTakeRight 2 (pySplitextRoot (pyBasename jp)) from
      images_tag_string _]
  constructor
  · rw [hop, hfun]
  · intro p hp
    rw [hop] at hp
    obtain ⟨i, -, rfl⟩ := List.mem_map.mp hp
    exact backslash_not_mem _

/-- Witness for C8: the opened paths of the concrete run match the claimed
formula. -/
theorem C8_witness :
    effC.opened = cdC.images.map (fun info =>
      replaceBackslash (pyNormpath (pyJoin
        (pyJoin (pyDirname "d/frames_DK.json")
          ("images_" ++
            pyTakeRight 2 (pySplitextRoot (pyBasename "d/frames_DK.json"))))
        (pyDrop 7 info.file_name)))) :=
  (C8_source_path envC "d/frames_DK.json" cdC "out" outC
    "out/augmented_noise_DK.json" effC augment_run_envC).1

/-! ## C9: annotation selection and remap -/

/-- C9: the output annotation sequence is, per surviving input image in
order, exactly the input annotations whose `image_id` matches that image
(original relative order preserved), each copied with only `image_id`
overwritten to `id + 4200000` and every other field untouched. -/
theorem C9_selection_remap (env : Env) (jp : String) (cd : CocoData)
    (od : String) (out : CocoData) (jpath : String) (eff : Effects)
    (h : augment_coco_dataset env jp cd od = .ok (out, jpath, eff)) :
    out.annotations = concatMap (fun info =>
      if survives env jp (tagOf jp) (subdirOf od jp) info then
        (cd.annotations.filter (fun a => a.image_id == info.id)).map
          (fun a => { a with image_id := info.id + 4200000 })
      else []) cd.images := by
  obtain ⟨hproc, -, -⟩ := augment_ok_inv env jp cd od out jpath eff h
  obtain ⟨-, hann, -, -, -⟩ :=
    processImages_spec env jp (tagOf jp) (subdirOf od jp) cd.annotations
      cd.images out.images out.annotations eff hproc
  simpa [remapFor] using hann

/-- Witness for C9: the concrete run's output annotations equal the
selection-and-remap formula. -/
theorem C9_witness :
    outC.annotations = concatMap (fun info =>
      if survives envC "d/frames_DK.json" (tagOf "d/frames_DK.json")
          (subdirOf "out" "d/frames_DK.json") info then
        (cdC.annotations.filter (fun a => a.image_id == info.id)).map
          (fun a => { a with image_id := info.id + 4200000 })
      else []) cdC.images :=
  C9_selection_remap envC "d/frames_DK.json" cdC "out" outC
    "out/augmented_noise_DK.json" effC augment_run_envC

/-! ## C10: the annotation-update loop never mutates its input -/

theorem set_append_singleton {α : Type _} (l : List α) (a b : α) :
    (l ++ [a]).set l.length b = l ++ [b] := by
  induction l with
  | nil => rfl
  | cons x xs ih => simp [List.set_cons_succ, ih]

theorem annCopyLoop_getD_pres (nid : Int) :
    ∀ (refs : List Nat) (store : List AnnotationRecord) (i : Nat),
      i < store.length →
      (annCopyLoop nid store refs).1.getD i default = store.getD i default := by
  intro refs
  induction refs with
  | nil => intro store i hi; rfl
  | cons r rs ih =>
    intro store i hi
    simp only [annCopyLoop, set_append_singleton]
    rw [ih (store ++
        [(⟨nid, (store.getD r default).rest⟩ : AnnotationRecord)]) i
      (by simp; omega)]
    exact List.getD_append _ _ _ _ hi

theorem annCopyLoop_fresh (nid : Int) :
    ∀ (refs : List Nat) (store : List AnnotationRecord) (j : Nat),
      j ∈ (annCopyLoop nid store refs).2 → store.length ≤ j := by
  intro refs
  induction refs with
  | nil => intro store j hj; simp [annCopyLoop] at hj
  | cons r rs ih =>
    intro store j hj
    simp only [annCopyLoop, set_append_singleton] at hj
    rcases List.mem_cons.mp hj with h1 | h2
    · omega
    · have h3 := ih (store ++
        [(⟨nid, (store.getD r default).rest⟩ : AnnotationRecord)]) j h2
      simp at h3
      omega

theorem annCopyLoop_values (nid : Int) :
    ∀ (refs : List Nat) (store : List AnnotationRecord),
      (∀ r ∈ refs, r < store.length) →
      ∀ pr ∈ refs.zip (annCopyLoop nid store refs).2,
        (annCopyLoop nid store refs).1.getD pr.2 default =
          { store.getD pr.1 default with image_id := nid } := by
  intro refs
  induction refs with
  | nil => intro store _ pr hpr; simp [annCopyLoop] at hpr
  | cons r rs ih =>
    intro store href pr hpr
    simp only [annCopyLoop, set_append_singleton, List.zip_cons_cons] at hpr ⊢
    rcases List.mem_cons.mp hpr with h1 | h2
    · subst h1
      simp only []
      rw [annCopyLoop_getD_pres nid rs
        (store ++ [(⟨nid, (store.getD r default).rest⟩ : AnnotationRecord)])
        store.length (by simp)]
      rw [List.getD_append_right _ _ _ _ (Nat.le_refl _)]
      simp
    · have href2 : ∀ x ∈ rs,
          x < (store ++
            [(⟨nid, (store.getD r default).rest⟩ : AnnotationRecord)]).length := by
        intro x hx
        have := href x (by simp [hx])
        simp
        omega
      have hv := ih (store ++
          [(⟨nid, (store.getD r default).rest⟩ : AnnotationRecord)])
        href2 pr h2
      rw [hv]
      have hp1 : pr.1 < store.length := by
        obtain ⟨hp1m, -⟩ := List.of_mem_zip h2
        exact href pr.1 (by simp [hp1m])
      simp only [List.getD_append _ _ _ _ hp1]

/-- C10: the annotation-update loop of the injector, run on the explicit
dict heap, leaves every input annotation record untouched (same
`image_id`, same remaining fields), and every record it returns is a
freshly allocated copy of its input with only `image_id` overwritten. -/
theorem C10_no_mutation (nid : Int) (store : List AnnotationRecord)
    (refs : List Nat) (href : ∀ r ∈ refs, r < store.length) :
    (∀ i, i < store.length →
      (annCopyLoop nid store refs).1.getD i default = store.getD i default) ∧
    (∀ j ∈ (annCopyLoop nid store refs).2, store.length ≤ j) ∧
    (∀ pr ∈ refs.zip (annCopyLoop nid store refs).2,
      (annCopyLoop nid store refs).1.getD pr.2 default =
        { store.getD pr.1 default with image_id := nid }) :=
  ⟨fun i hi => annCopyLoop_getD_pres nid refs store i hi,
   fun j hj => annCopyLoop_fresh nid refs store j hj,
   fun pr hpr => annCopyLoop_values nid refs store href pr hpr⟩

/-- Witness for C10: after remapping a one-record store, position 0 still
holds the original record. -/
theorem C10_witness :
    (annCopyLoop 4200001 [⟨1, [("bbox", 7)]⟩] [0]).1.getD 0 default =
      (⟨1, [("bbox", 7)]⟩ : AnnotationRecord) :=
  (C10_no_mutation 4200001 [⟨1, [("bbox", 7)]⟩] [0] (by decide)).1 0
    (by decide)

end HandFlight
